import Mathlib

/-!
Verification development for the buddy memory manager repository.

The repository C header (src/src/buddy_memory_manager.hpp) declares the
allocator interface and its data layout; the C test suite
(src/src/tests/tests.c) exercises it.  The bodies of btok, buddy_calc,
buddy_init, buddy_malloc, buddy_free and remove_block are not part of the
visible sources, so those operations are modelled from the specification
(spec.md sections 4.1 - 4.6), while every constant and the data layout are
taken from the header.

Modelling conventions:
- memory addresses are natural numbers; a pool records its arena base
  address, and blocks are identified by their byte offset from that base;
- the circular doubly linked free list of an order is represented by the
  list of block offsets read from the sentinel following the next links;
  a self linked sentinel (next == prev == self) is the empty list;
- each sentinel of the avail table keeps only its identity fields
  (tag, kval), which is all the tests observe of it;
- the block header overlay is a map from offsets to header fields
  (tag, kval); the arena is not zero initialized, so buddy_init takes the
  indeterminate initial header contents as a parameter.
-/

/-- Default order, constant DEFAULT_K from src/src/buddy_memory_manager.hpp. -/
def DEFAULT_K : Nat := 30

/-- Minimum order, constant MIN_K from src/src/buddy_memory_manager.hpp. -/
def MIN_K : Nat := 20

/-- Maximum order, constant MAX_K from src/src/buddy_memory_manager.hpp. -/
def MAX_K : Nat := 48

/-- Smallest allocatable order, constant SMALLEST_K from the header. -/
def SMALLEST_K : Nat := 6

/-- Tag of an available block, constant BLOCK_AVAIL from the header. -/
def BLOCK_AVAIL : Nat := 1

/-- Tag of a reserved block, constant BLOCK_RESERVED from the header. -/
def BLOCK_RESERVED : Nat := 0

/-- Tag of an unused sentinel, constant BLOCK_UNUSED from the header. -/
def BLOCK_UNUSED : Nat := 3

/-- Identity fields of a block header or sentinel: struct Avail of the
header has members tag, kval, next, prev; the two link members are
represented by the free list sequences of the pool model instead. -/
structure Avail where
  tag : Nat
  kval : Nat
deriving DecidableEq

/-- Size in bytes of struct Avail on an LP64 platform: two uint16_t
members, four padding bytes, and two eight byte pointers give 24. -/
def sizeofAvail : Nat := 24

/-- Number of entries of the member array `Avail avail[MAX_K]` of struct
BuddyPool in src/src/buddy_memory_manager.hpp, so the valid indices are
0 up to MAX_K - 1. -/
def availLen : Nat := MAX_K

/-- Fuel driven worker for btok: one halving step per unit of fuel. -/
def btokAux : Nat → Nat → Nat
  | 0, _ => 0
  | fuel + 1, n => if n ≤ 1 then 0 else btokAux fuel ((n + 1) / 2) + 1

/-- Modelled from the spec: the body of btok is not in the visible
sources.  Spec 4.1: orderFor(bytes) returns the smallest k such that
2 ^ k >= bytes, with orderFor 0 = orderFor 1 = 0.  Computed by repeated
halving (rounding up), with enough fuel for any input. -/
def btok (bytes : Nat) : Nat := btokAux bytes bytes

/-- Pool state: struct BuddyPool of the header has members kval_m,
numbytes, base and the avail table; following the modelling conventions
the avail table splits into the sentinel identity fields and the per
order free lists, and the header overlay of the arena is the map headers. -/
structure PoolModel where
  kval_m : Nat
  numbytes : Nat
  base : Nat
  sentinels : Nat → Avail
  freeLists : Nat → List Nat
  headers : Nat → Avail

/-- Writes the header fields at one block offset, leaving the rest of the
pool unchanged. -/
def set_header (p : PoolModel) (off : Nat) (h : Avail) : PoolModel :=
  { p with headers := fun x => if x = off then h else p.headers x }

/-- Modelled from the spec: the body of the free list insertion helper is
not in the visible sources.  Spec 4.3: O(1) insertion at the head of the
list of avail[order]; sets tag AVAILABLE and the recorded order. -/
def insert_block (p : PoolModel) (off k : Nat) : PoolModel :=
  { p with
    freeLists := fun i => if i = k then off :: p.freeLists k else p.freeLists i,
    headers := fun x => if x = off then ⟨BLOCK_AVAIL, k⟩ else p.headers x }

/-- Modelled from the spec: the body of remove_block is not in the visible
sources.  Spec 4.3: O(1) splice removing the block from whichever list
currently contains it; in the list representation this erases the offset
from every order list (it occurs in at most one). -/
def remove_block (p : PoolModel) (off : Nat) : PoolModel :=
  { p with freeLists := fun i => (p.freeLists i).erase off }

/-- Removes the head block of the list of order o, whose tail is rest. -/
def remove_head (p : PoolModel) (o : Nat) (rest : List Nat) : PoolModel :=
  { p with freeLists := fun i => if i = o then rest else p.freeLists i }

/-- Modelled from the spec: the body of buddy_calc is not in the visible
sources.  Spec 4.2: buddyOf(pool, address, order) computes
pool.base + ((address - pool.base) XOR (1 << order)); per the C signature
buddy_calc reads the order from the header of the passed block. -/
def buddy_calc (p : PoolModel) (addr : Nat) : Nat :=
  p.base + ((addr - p.base) ^^^ (1 <<< (p.headers (addr - p.base)).kval))

/-- Modelled from the spec: the body of buddy_init is not in the visible
sources.  Spec 4.4: size 0 selects the default order; otherwise the size
is rounded up to the next power of two, the order derived and clamped to
[MIN_K, MAX_K].  Every sentinel starts as an empty self linked list with
tag UNUSED and recorded order i, and the single whole arena block sits at
the arena base with tag AVAILABLE and order kval_m.  The parameter mem is
the indeterminate initial content of the arena. -/
def buddy_init (mem : Nat → Avail) (base : Nat) (size : Nat) : PoolModel :=
  let k := if size = 0 then DEFAULT_K else max MIN_K (min MAX_K (btok size))
  { kval_m := k
    numbytes := 2 ^ k
    base := base
    sentinels := fun i => ⟨BLOCK_UNUSED, i⟩
    freeLists := fun i => if i = k then [0] else []
    headers := fun off => if off = 0 then ⟨BLOCK_AVAIL, k⟩ else mem off }

/-- Order targeted by a malloc request: spec 4.5,
j = max(orderFor(size + header overhead), SMALLEST_ORDER). -/
def mallocOrder (size : Nat) : Nat := max (btok (size + sizeofAvail)) SMALLEST_K

/-- Scan of the free list table upward from order j for the first non
empty list, for at most count orders (spec 4.5). -/
def scan (p : PoolModel) : Nat → Nat → Option Nat
  | _, 0 => none
  | j, count + 1 => if p.freeLists j = [] then scan p (j + 1) count else some j

/-- Splitting loop of malloc (spec 4.5): while the working order exceeds
the target j, split the working block at offset off, inserting the upper
half into the free list one order down; d is the number of splits left. -/
def split_loop : PoolModel → Nat → Nat → Nat → PoolModel
  | p, _, _, 0 => p
  | p, off, j, d + 1 => split_loop (insert_block p (off + 2 ^ (j + d)) (j + d)) off j d

/-- Modelled from the spec: the body of buddy_malloc is not in the visible
sources.  Spec 4.5: size 0 gives null; compute the target order from the
size plus header overhead; fail with null when it exceeds kval_m; scan
upward for a non empty list; remove its head block, split down to the
target order, mark the block RESERVED and return the address just past
its header.  Every failure returns the pool untouched. -/
def buddy_malloc (p : PoolModel) (size : Nat) : Option Nat × PoolModel :=
  if size = 0 then (none, p)
  else
    let j := mallocOrder size
    if p.kval_m < j then (none, p)
    else
      match scan p j (p.kval_m + 1 - j) with
      | none => (none, p)
      | some o =>
        match p.freeLists o with
        | [] => (none, p)
        | off :: rest =>
          (some (p.base + off + sizeofAvail),
            set_header (split_loop (remove_head p o rest) off j (o - j)) off
              ⟨BLOCK_RESERVED, j⟩)

/-- Coalescing loop of free (spec 4.6): while the order is below kval_m
and the buddy computed by the XOR relation is AVAILABLE at the same
order, remove the buddy from its list and continue one order up from the
lower of the two offsets; d is the number of orders left below kval_m. -/
def merge_loop : PoolModel → Nat → Nat → Nat → PoolModel × Nat × Nat
  | p, off, k, 0 => (p, off, k)
  | p, off, k, d + 1 =>
    let b := off ^^^ (1 <<< k)
    if (p.headers b).tag = BLOCK_AVAIL ∧ (p.headers b).kval = k then
      merge_loop (remove_block p b) (min off b) (k + 1) d
    else (p, off, k)

/-- Modelled from the spec: the body of buddy_free is not in the visible
sources.  Spec 4.6: a null pointer is a no-op returning success; otherwise
recover the header just below the payload pointer, read its order, set
its tag AVAILABLE, coalesce with available buddies as far as possible and
insert the result into the free list of the final order; returns 0. -/
def buddy_free (p : PoolModel) (ptr : Option Nat) : Nat × PoolModel :=
  match ptr with
  | none => (0, p)
  | some a =>
    let off := a - sizeofAvail - p.base
    let k := (p.headers off).kval
    let r := merge_loop (set_header p off ⟨BLOCK_AVAIL, k⟩) off k (p.kval_m - k)
    (0, insert_block r.1 r.2.1 r.2.2)

/-- One operation against a pool: the public mutating calls. -/
inductive Op
  | malloc : Nat → Op
  | free : Option Nat → Op

/-- State reached after one operation (the returned value is dropped). -/
def stepOp (p : PoolModel) : Op → PoolModel
  | Op.malloc s => (buddy_malloc p s).2
  | Op.free ptr => (buddy_free p ptr).2

/-- State reached after a sequence of operations. -/
def runOps : PoolModel → List Op → PoolModel
  | p, [] => p
  | p, op :: ops => runOps (stepOp p op) ops

/-- Arbitrary but fixed indeterminate arena contents used by witnesses. -/
def memZero : Nat → Avail := fun _ => ⟨0, 0⟩

/-! ## Characterization of btok -/

theorem btokAux_le_pow : ∀ fuel n, n ≤ fuel → n ≤ 2 ^ btokAux fuel n := by
  intro fuel
  induction fuel with
  | zero =>
    intro n hn
    have hn0 : n = 0 := by omega
    subst hn0
    simp [btokAux]
  | succ f ih =>
    intro n hn
    by_cases h1 : n ≤ 1
    · simp [btokAux, h1]
    · have hrec : (n + 1) / 2 ≤ f := by omega
      have hh := ih ((n + 1) / 2) hrec
      simp only [btokAux, if_neg h1]
      have h2 : 2 ^ (btokAux f ((n + 1) / 2) + 1) = 2 ^ btokAux f ((n + 1) / 2) * 2 :=
        pow_succ 2 _
      omega

theorem btokAux_min : ∀ fuel n k, n ≤ fuel → n ≤ 2 ^ k → btokAux fuel n ≤ k := by
  intro fuel
  induction fuel with
  | zero => intro n k _ _; simp [btokAux]
  | succ f ih =>
    intro n k hn hk
    by_cases h1 : n ≤ 1
    · simp [btokAux, h1]
    · simp only [btokAux, if_neg h1]
      cases k with
      | zero =>
        rw [pow_zero] at hk
        omega
      | succ k1 =>
        have hrec : (n + 1) / 2 ≤ f := by omega
        have hk1 : (n + 1) / 2 ≤ 2 ^ k1 := by
          have hp : 2 ^ (k1 + 1) = 2 ^ k1 * 2 := pow_succ 2 k1
          omega
        have := ih ((n + 1) / 2) k1 hrec hk1
        omega

theorem btok_le_pow (n : Nat) : n ≤ 2 ^ btok n :=
  btokAux_le_pow n n (Nat.le_refl n)

theorem btok_min {n k : Nat} (h : n ≤ 2 ^ k) : btok n ≤ k :=
  btokAux_min n n k (Nat.le_refl n) h

theorem btok_pow (k : Nat) : btok (2 ^ k) = k := by
  refine Nat.le_antisymm (btok_min (Nat.le_refl _)) ?_
  exact (Nat.pow_le_pow_iff_right (by norm_num)).mp (btok_le_pow (2 ^ k))

/-! ## Field preservation lemmas -/

theorem split_loop_kval_m : ∀ d p off j, (split_loop p off j d).kval_m = p.kval_m := by
  intro d
  induction d with
  | zero => intro p off j; rfl
  | succ d ih => intro p off j; exact ih _ off j

theorem split_loop_base : ∀ d p off j, (split_loop p off j d).base = p.base := by
  intro d
  induction d with
  | zero => intro p off j; rfl
  | succ d ih => intro p off j; exact ih _ off j

theorem split_loop_sentinels : ∀ d p off j,
    (split_loop p off j d).sentinels = p.sentinels := by
  intro d
  induction d with
  | zero => intro p off j; rfl
  | succ d ih => intro p off j; exact ih _ off j

theorem merge_loop_kval_m : ∀ d p off k, (merge_loop p off k d).1.kval_m = p.kval_m := by
  intro d
  induction d with
  | zero => intro p off k; rfl
  | succ d ih =>
    intro p off k
    simp only [merge_loop]
    split
    · exact ih _ _ _
    · rfl

theorem merge_loop_base : ∀ d p off k, (merge_loop p off k d).1.base = p.base := by
  intro d
  induction d with
  | zero => intro p off k; rfl
  | succ d ih =>
    intro p off k
    simp only [merge_loop]
    split
    · exact ih _ _ _
    · rfl

theorem merge_loop_sentinels : ∀ d p off k,
    (merge_loop p off k d).1.sentinels = p.sentinels := by
  intro d
  induction d with
  | zero => intro p off k; rfl
  | succ d ih =>
    intro p off k
    simp only [merge_loop]
    split
    · exact ih _ _ _
    · rfl

theorem merge_loop_headers : ∀ d p off k,
    (merge_loop p off k d).1.headers = p.headers := by
  intro d
  induction d with
  | zero => intro p off k; rfl
  | succ d ih =>
    intro p off k
    simp only [merge_loop]
    split
    · exact ih _ _ _
    · rfl

/-! ## Unfolding lemmas for the allocator operations -/

theorem buddy_malloc_zero (p : PoolModel) : buddy_malloc p 0 = (none, p) := by
  unfold buddy_malloc
  rw [if_pos rfl]

theorem buddy_malloc_guard (p : PoolModel) (size : Nat)
    (h : p.kval_m < mallocOrder size) : buddy_malloc p size = (none, p) := by
  unfold buddy_malloc
  split
  · rfl
  · rw [if_pos h]

theorem buddy_malloc_cases (p : PoolModel) (size : Nat) :
    buddy_malloc p size = (none, p) ∨ (buddy_malloc p size).1.isSome := by
  simp only [buddy_malloc]
  split
  · exact Or.inl rfl
  · split
    · exact Or.inl rfl
    · split
      · exact Or.inl rfl
      · split
        · exact Or.inl rfl
        · exact Or.inr rfl

theorem buddy_malloc_eq (p : PoolModel) (size o off : Nat) (rest : List Nat)
    (hsz : size ≠ 0) (hg : ¬ p.kval_m < mallocOrder size)
    (hscan : scan p (mallocOrder size) (p.kval_m + 1 - mallocOrder size) = some o)
    (hl : p.freeLists o = off :: rest) :
    buddy_malloc p size =
      (some (p.base + off + sizeofAvail),
        set_header (split_loop (remove_head p o rest) off (mallocOrder size)
          (o - mallocOrder size)) off ⟨BLOCK_RESERVED, mallocOrder size⟩) := by
  simp only [buddy_malloc, if_neg hsz, if_neg hg, hscan, hl]

theorem buddy_free_some (p : PoolModel) (a : Nat) :
    buddy_free p (some a) =
      (0, insert_block
        (merge_loop (set_header p (a - sizeofAvail - p.base)
            ⟨BLOCK_AVAIL, (p.headers (a - sizeofAvail - p.base)).kval⟩)
          (a - sizeofAvail - p.base) ((p.headers (a - sizeofAvail - p.base)).kval)
          (p.kval_m - (p.headers (a - sizeofAvail - p.base)).kval)).1
        (merge_loop (set_header p (a - sizeofAvail - p.base)
            ⟨BLOCK_AVAIL, (p.headers (a - sizeofAvail - p.base)).kval⟩)
          (a - sizeofAvail - p.base) ((p.headers (a - sizeofAvail - p.base)).kval)
          (p.kval_m - (p.headers (a - sizeofAvail - p.base)).kval)).2.1
        (merge_loop (set_header p (a - sizeofAvail - p.base)
            ⟨BLOCK_AVAIL, (p.headers (a - sizeofAvail - p.base)).kval⟩)
          (a - sizeofAvail - p.base) ((p.headers (a - sizeofAvail - p.base)).kval)
          (p.kval_m - (p.headers (a - sizeofAvail - p.base)).kval)).2.2) := rfl

theorem buddy_init_pow (mem : Nat → Avail) (base K : Nat)
    (h1 : MIN_K ≤ K) (h2 : K ≤ MAX_K) :
    buddy_init mem base (2 ^ K) =
      { kval_m := K
        numbytes := 2 ^ K
        base := base
        sentinels := fun i => ⟨BLOCK_UNUSED, i⟩
        freeLists := fun i => if i = K then [0] else []
        headers := fun off => if off = 0 then ⟨BLOCK_AVAIL, K⟩ else mem off } := by
  have h0 : (2 : Nat) ^ K ≠ 0 := (Nat.pow_pos (by norm_num)).ne'
  have hb : btok (2 ^ K) = K := btok_pow K
  have hclamp : max MIN_K (min MAX_K K) = K := by
    unfold MIN_K at h1
    unfold MAX_K at h2
    unfold MIN_K MAX_K
    omega
  simp only [buddy_init, if_neg h0, hb, hclamp]

/-! ## Projection lemmas for the elementary state updates -/

theorem insert_block_freeLists (p : PoolModel) (off k i : Nat) :
    (insert_block p off k).freeLists i =
      if i = k then off :: p.freeLists k else p.freeLists i := rfl

theorem insert_block_headers (p : PoolModel) (off k x : Nat) :
    (insert_block p off k).headers x =
      if x = off then ⟨BLOCK_AVAIL, k⟩ else p.headers x := rfl

theorem set_header_headers (p : PoolModel) (off : Nat) (h : Avail) (x : Nat) :
    (set_header p off h).headers x = if x = off then h else p.headers x := rfl

theorem set_header_freeLists (p : PoolModel) (off : Nat) (h : Avail) (i : Nat) :
    (set_header p off h).freeLists i = p.freeLists i := rfl

theorem remove_block_freeLists (p : PoolModel) (off i : Nat) :
    (remove_block p off).freeLists i = (p.freeLists i).erase off := rfl

theorem remove_head_freeLists (p : PoolModel) (o : Nat) (rest : List Nat) (i : Nat) :
    (remove_head p o rest).freeLists i =
      if i = o then rest else p.freeLists i := rfl

/-! ## Behaviour of scan, split_loop and merge_loop on the states the
round trip produces -/

theorem pow_two_ne {a b : Nat} (h : a ≠ b) : (2 : Nat) ^ a ≠ 2 ^ b := by
  intro hc
  exact h (Nat.pow_right_injective (by norm_num) hc)

theorem scan_some_top (p : PoolModel) (K : Nat)
    (hlow : ∀ i, i < K → p.freeLists i = []) (htop : p.freeLists K ≠ []) :
    ∀ c j, j ≤ K → j + c = K + 1 → scan p j c = some K := by
  intro c
  induction c with
  | zero => intro j hj hc; omega
  | succ c ih =>
    intro j hj hc
    by_cases hjK : j = K
    · subst hjK
      simp only [scan, if_neg htop]
    · have hjlt : j < K := by omega
      simp only [scan, if_pos (hlow j hjlt)]
      exact ih (j + 1) (by omega) (by omega)

theorem split_loop_freeLists : ∀ d p off j i,
    (split_loop p off j d).freeLists i =
      if j ≤ i ∧ i < j + d then (off + 2 ^ i) :: p.freeLists i
      else p.freeLists i := by
  intro d
  induction d with
  | zero =>
    intro p off j i
    have h : ¬ (j ≤ i ∧ i < j + 0) := by omega
    rw [if_neg h]
    rfl
  | succ d ih =>
    intro p off j i
    simp only [split_loop]
    rw [ih]
    simp only [insert_block_freeLists]
    by_cases h2 : i = j + d
    · subst h2
      have hc1 : ¬ (j ≤ j + d ∧ j + d < j + d) := by omega
      have hc2 : j ≤ j + d ∧ j + d < j + (d + 1) := by omega
      rw [if_neg hc1, if_pos rfl, if_pos hc2]
    · simp only [if_neg h2]
      by_cases h1 : j ≤ i ∧ i < j + d
      · have hc2 : j ≤ i ∧ i < j + (d + 1) := by omega
        rw [if_pos h1, if_pos hc2]
      · have hc2 : ¬ (j ≤ i ∧ i < j + (d + 1)) := by omega
        rw [if_neg h1, if_neg hc2]

theorem split_loop_headers_miss : ∀ d p off j x,
    (∀ i, j ≤ i → i < j + d → x ≠ off + 2 ^ i) →
    (split_loop p off j d).headers x = p.headers x := by
  intro d
  induction d with
  | zero => intro p off j x _; rfl
  | succ d ih =>
    intro p off j x hx
    simp only [split_loop]
    rw [ih _ off j x fun i h1 h2 => hx i h1 (by omega)]
    have hne : x ≠ off + 2 ^ (j + d) := hx (j + d) (by omega) (by omega)
    rw [insert_block_headers, if_neg hne]

theorem split_loop_headers_hit : ∀ d p off j i, j ≤ i → i < j + d →
    (split_loop p off j d).headers (off + 2 ^ i) = ⟨BLOCK_AVAIL, i⟩ := by
  intro d
  induction d with
  | zero => intro p off j i h1 h2; omega
  | succ d ih =>
    intro p off j i h1 h2
    simp only [split_loop]
    by_cases hi : i = j + d
    · subst hi
      rw [split_loop_headers_miss d _ off j _ ?_]
      · rw [insert_block_headers, if_pos rfl]
      · intro i2 hl hr hc
        have hne : (2 : Nat) ^ (j + d) ≠ 2 ^ i2 := pow_two_ne (by omega)
        omega
    · exact ih _ off j i h1 (by omega)

theorem merge_unwind : ∀ d p k,
    (∀ i, p.freeLists i = if k ≤ i ∧ i < k + d then [2 ^ i] else []) →
    (∀ i, k ≤ i → i < k + d → p.headers (2 ^ i) = ⟨BLOCK_AVAIL, i⟩) →
    (merge_loop p 0 k d).2.1 = 0 ∧ (merge_loop p 0 k d).2.2 = k + d ∧
      (∀ i, (merge_loop p 0 k d).1.freeLists i = []) ∧
      (merge_loop p 0 k d).1.kval_m = p.kval_m ∧
      (merge_loop p 0 k d).1.base = p.base ∧
      (merge_loop p 0 k d).1.sentinels = p.sentinels ∧
      (merge_loop p 0 k d).1.headers = p.headers := by
  intro d
  induction d with
  | zero =>
    intro p k hfl hhd
    refine ⟨rfl, rfl, ?_, rfl, rfl, rfl, rfl⟩
    intro i
    have hcond : ¬ (k ≤ i ∧ i < k + 0) := by omega
    show p.freeLists i = []
    rw [hfl i, if_neg hcond]
  | succ d ih =>
    intro p k hfl hhd
    have hb : (0 : Nat) ^^^ 1 <<< k = 2 ^ k := by
      rw [Nat.zero_xor, Nat.shiftLeft_eq, one_mul]
    have hhk : p.headers ((0 : Nat) ^^^ 1 <<< k) = ⟨BLOCK_AVAIL, k⟩ := by
      rw [hb]; exact hhd k (by omega) (by omega)
    have hcond : (p.headers ((0 : Nat) ^^^ 1 <<< k)).tag = BLOCK_AVAIL ∧
        (p.headers ((0 : Nat) ^^^ 1 <<< k)).kval = k := by rw [hhk]; exact ⟨rfl, rfl⟩
    have hmin : min 0 ((0 : Nat) ^^^ 1 <<< k) = 0 := Nat.zero_min _
    have hfl2 : ∀ i, (remove_block p ((0 : Nat) ^^^ 1 <<< k)).freeLists i =
        if k + 1 ≤ i ∧ i < (k + 1) + d then [2 ^ i] else [] := by
      intro i
      rw [remove_block_freeLists, hb, hfl i]
      by_cases hik : i = k
      · subst hik
        have h1 : i ≤ i ∧ i < i + (d + 1) := by omega
        have h2 : ¬ (i + 1 ≤ i ∧ i < i + 1 + d) := by omega
        rw [if_pos h1, if_neg h2, List.erase_cons_head]
      · by_cases h3 : k ≤ i ∧ i < k + (d + 1)
        · have h4 : k + 1 ≤ i ∧ i < k + 1 + d := by omega
          rw [if_pos h3, if_pos h4, List.erase_of_not_mem]
          simp only [List.mem_singleton]
          exact fun h => hik (Nat.pow_right_injective (by norm_num) h).symm
        · have h4 : ¬ (k + 1 ≤ i ∧ i < k + 1 + d) := by omega
          rw [if_neg h3, if_neg h4, List.erase_nil]
    have hhd2 : ∀ i, k + 1 ≤ i → i < (k + 1) + d →
        (remove_block p ((0 : Nat) ^^^ 1 <<< k)).headers (2 ^ i) =
          ⟨BLOCK_AVAIL, i⟩ := by
      intro i h1 h2
      exact hhd i (by omega) (by omega)
    obtain ⟨r1, r2, r3, r4, r5, r6, r7⟩ :=
      ih (remove_block p ((0 : Nat) ^^^ 1 <<< k)) (k + 1) hfl2 hhd2
    simp only [merge_loop, if_pos hcond, hmin]
    refine ⟨r1, ?_, r3, ?_, ?_, ?_, ?_⟩
    · rw [r2]; omega
    · rw [r4]; rfl
    · rw [r5]; rfl
    · rw [r6]; rfl
    · rw [r7]; rfl

/-! ## The allocation and round trip on a pool in the freshly
initialized (full) state -/

theorem malloc_isSome_inv (p : PoolModel) (size : Nat)
    (hs : (buddy_malloc p size).1.isSome = true) :
    size ≠ 0 ∧ mallocOrder size ≤ p.kval_m := by
  constructor
  · intro h
    subst h
    rw [buddy_malloc_zero] at hs
    simp at hs
  · by_contra hg
    rw [buddy_malloc_guard p size (by omega)] at hs
    simp at hs

theorem malloc_full (p : PoolModel) (K size : Nat)
    (hk : p.kval_m = K)
    (hfl : ∀ i, p.freeLists i = if i = K then [0] else [])
    (hsz : size ≠ 0) (hj : mallocOrder size ≤ K) :
    buddy_malloc p size =
      (some (p.base + sizeofAvail),
        set_header (split_loop (remove_head p K []) 0 (mallocOrder size)
          (K - mallocOrder size)) 0 ⟨BLOCK_RESERVED, mallocOrder size⟩) := by
  have hguard : ¬ p.kval_m < mallocOrder size := by omega
  have hscan : scan p (mallocOrder size) (p.kval_m + 1 - mallocOrder size) = some K := by
    rw [hk]
    apply scan_some_top p K
    · intro i hi
      rw [hfl i, if_neg (by omega)]
    · rw [hfl K, if_pos rfl]
      simp
    · exact hj
    · omega
  have hl : p.freeLists K = 0 :: [] := by rw [hfl K, if_pos rfl]
  have heq := buddy_malloc_eq p size K 0 [] hsz hguard hscan hl
  rw [heq]
  norm_num

theorem malloc_full_state (p : PoolModel) (K size : Nat)
    (hk : p.kval_m = K)
    (hfl : ∀ i, p.freeLists i = if i = K then [0] else [])
    (hsz : size ≠ 0) (hj : mallocOrder size ≤ K) :
    (buddy_malloc p size).1 = some (p.base + sizeofAvail) ∧
    (∀ i, (buddy_malloc p size).2.freeLists i =
        if mallocOrder size ≤ i ∧ i < K then [2 ^ i] else []) ∧
    (∀ i, mallocOrder size ≤ i → i < K →
        (buddy_malloc p size).2.headers (2 ^ i) = ⟨BLOCK_AVAIL, i⟩) ∧
    (buddy_malloc p size).2.headers 0 = ⟨BLOCK_RESERVED, mallocOrder size⟩ ∧
    (buddy_malloc p size).2.kval_m = K ∧
    (buddy_malloc p size).2.base = p.base ∧
    (buddy_malloc p size).2.sentinels = p.sentinels := by
  rw [malloc_full p K size hk hfl hsz hj]
  have hempty : ∀ i2, (remove_head p K []).freeLists i2 = [] := by
    intro i2
    rw [remove_head_freeLists]
    by_cases h : i2 = K
    · rw [if_pos h]
    · rw [if_neg h, hfl i2, if_neg h]
  have hjd : mallocOrder size + (K - mallocOrder size) = K := by omega
  refine ⟨rfl, ?_, ?_, ?_, ?_, ?_, ?_⟩
  · intro i
    simp only [set_header_freeLists, split_loop_freeLists, hempty, hjd, Nat.zero_add]
  · intro i hji hiK
    rw [set_header_headers]
    have h2i : (2 : Nat) ^ i ≠ 0 := (Nat.pow_pos (by norm_num)).ne'
    rw [if_neg h2i]
    have hh := split_loop_headers_hit (K - mallocOrder size) (remove_head p K []) 0
      (mallocOrder size) i hji (by omega)
    rw [Nat.zero_add] at hh
    exact hh
  · rw [set_header_headers, if_pos rfl]
  · show (split_loop (remove_head p K []) 0 (mallocOrder size)
      (K - mallocOrder size)).kval_m = K
    rw [split_loop_kval_m]
    exact hk
  · show (split_loop (remove_head p K []) 0 (mallocOrder size)
      (K - mallocOrder size)).base = p.base
    rw [split_loop_base]
    rfl
  · show (split_loop (remove_head p K []) 0 (mallocOrder size)
      (K - mallocOrder size)).sentinels = p.sentinels
    rw [split_loop_sentinels]
    rfl

theorem roundtrip_state (p : PoolModel) (K size : Nat)
    (hk : p.kval_m = K)
    (hfl : ∀ i, p.freeLists i = if i = K then [0] else [])
    (hsz : size ≠ 0) (hj : mallocOrder size ≤ K) :
    (buddy_free (buddy_malloc p size).2 (buddy_malloc p size).1).1 = 0 ∧
    (∀ i, (buddy_free (buddy_malloc p size).2 (buddy_malloc p size).1).2.freeLists i =
        if i = K then [0] else []) ∧
    (buddy_free (buddy_malloc p size).2 (buddy_malloc p size).1).2.headers 0 =
      ⟨BLOCK_AVAIL, K⟩ ∧
    (buddy_free (buddy_malloc p size).2 (buddy_malloc p size).1).2.kval_m = K ∧
    (buddy_free (buddy_malloc p size).2 (buddy_malloc p size).1).2.base = p.base ∧
    (buddy_free (buddy_malloc p size).2 (buddy_malloc p size).1).2.sentinels =
      p.sentinels := by
  obtain ⟨m1, m2, m3, m4, m5, m6, m7⟩ := malloc_full_state p K size hk hfl hsz hj
  rw [m1, buddy_free_some]
  have hoff : p.base + sizeofAvail - sizeofAvail - (buddy_malloc p size).2.base = 0 := by
    rw [m6]
    omega
  rw [hoff]
  have hkv : ((buddy_malloc p size).2.headers 0).kval = mallocOrder size := by
    rw [m4]
  rw [hkv]
  have hd : (buddy_malloc p size).2.kval_m - mallocOrder size = K - mallocOrder size := by
    rw [m5]
  rw [hd]
  have hjd : mallocOrder size + (K - mallocOrder size) = K := by omega
  obtain ⟨u1, u2, u3, u4, u5, u6, u7⟩ := merge_unwind (K - mallocOrder size)
    (set_header (buddy_malloc p size).2 0 ⟨BLOCK_AVAIL, mallocOrder size⟩)
    (mallocOrder size)
    (by
      intro i
      rw [set_header_freeLists, hjd]
      exact m2 i)
    (by
      intro i hji hi
      have h2i : (2 : Nat) ^ i ≠ 0 := (Nat.pow_pos (by norm_num)).ne'
      rw [set_header_headers, if_neg h2i]
      exact m3 i hji (by omega))
  rw [u1]
  have u2K : (merge_loop (set_header (buddy_malloc p size).2 0
      ⟨BLOCK_AVAIL, mallocOrder size⟩) 0 (mallocOrder size)
      (K - mallocOrder size)).2.2 = K := by
    rw [u2, hjd]
  rw [u2K]
  refine ⟨rfl, ?_, ?_, ?_, ?_, ?_⟩
  · intro i
    rw [insert_block_freeLists]
    by_cases h : i = K
    · rw [if_pos h, u3 K, if_pos h]
    · rw [if_neg h, u3 i, if_neg h]
  · rw [insert_block_headers, if_pos rfl]
  · show (merge_loop (set_header (buddy_malloc p size).2 0
      ⟨BLOCK_AVAIL, mallocOrder size⟩) 0 (mallocOrder size)
      (K - mallocOrder size)).1.kval_m = K
    rw [u4]
    exact m5
  · show (merge_loop (set_header (buddy_malloc p size).2 0
      ⟨BLOCK_AVAIL, mallocOrder size⟩) 0 (mallocOrder size)
      (K - mallocOrder size)).1.base = p.base
    rw [u5]
    exact m6
  · show (merge_loop (set_header (buddy_malloc p size).2 0
      ⟨BLOCK_AVAIL, mallocOrder size⟩) 0 (mallocOrder size)
      (K - mallocOrder size)).1.sentinels = p.sentinels
    rw [u6]
    exact m7

/-! ## Preservation of the sentinel identity fields and of kval_m by the
public operations -/

theorem merge_loop_zero (p : PoolModel) (off k : Nat) :
    merge_loop p off k 0 = (p, off, k) := rfl

theorem buddy_malloc_sentinels (p : PoolModel) (size : Nat) :
    (buddy_malloc p size).2.sentinels = p.sentinels := by
  simp only [buddy_malloc]
  split
  · rfl
  · split
    · rfl
    · split
      · rfl
      · split
        · rfl
        · exact split_loop_sentinels _ _ _ _

theorem buddy_malloc_kval_m (p : PoolModel) (size : Nat) :
    (buddy_malloc p size).2.kval_m = p.kval_m := by
  simp only [buddy_malloc]
  split
  · rfl
  · split
    · rfl
    · split
      · rfl
      · split
        · rfl
        · exact split_loop_kval_m _ _ _ _

theorem buddy_free_sentinels (p : PoolModel) (ptr : Option Nat) :
    (buddy_free p ptr).2.sentinels = p.sentinels := by
  cases ptr with
  | none => rfl
  | some a =>
    rw [buddy_free_some]
    exact merge_loop_sentinels _ _ _ _

theorem buddy_free_kval_m (p : PoolModel) (ptr : Option Nat) :
    (buddy_free p ptr).2.kval_m = p.kval_m := by
  cases ptr with
  | none => rfl
  | some a =>
    rw [buddy_free_some]
    exact merge_loop_kval_m _ _ _ _

theorem runOps_sentinels : ∀ ops p, (runOps p ops).sentinels = p.sentinels := by
  intro ops
  induction ops with
  | nil => intro p; rfl
  | cons op ops ih =>
    intro p
    show (runOps (stepOp p op) ops).sentinels = p.sentinels
    rw [ih]
    cases op with
    | malloc s => exact buddy_malloc_sentinels p s
    | free ptr => exact buddy_free_sentinels p ptr

theorem runOps_kval_m : ∀ ops p, (runOps p ops).kval_m = p.kval_m := by
  intro ops
  induction ops with
  | nil => intro p; rfl
  | cons op ops ih =>
    intro p
    show (runOps (stepOp p op) ops).kval_m = p.kval_m
    rw [ih]
    cases op with
    | malloc s => exact buddy_malloc_kval_m p s
    | free ptr => exact buddy_free_kval_m p ptr

/-! ## Second free of an already freed and fully coalesced pointer -/

theorem free_on_full (p : PoolModel) (K a : Nat)
    (hk : p.kval_m = K)
    (hfl : ∀ i, p.freeLists i = if i = K then [0] else [])
    (hhd : p.headers 0 = ⟨BLOCK_AVAIL, K⟩)
    (ha : a - sizeofAvail - p.base = 0) :
    (buddy_free p (some a)).1 = 0 ∧
    (buddy_free p (some a)).2.freeLists K = [0, 0] := by
  rw [buddy_free_some]
  simp only [ha]
  have hkv : (p.headers 0).kval = K := by rw [hhd]
  simp only [hkv]
  have hd0 : p.kval_m - K = 0 := by omega
  simp only [hd0, merge_loop_zero]
  refine ⟨trivial, ?_⟩
  rw [insert_block_freeLists, if_pos rfl, set_header_freeLists, hfl K, if_pos rfl]

/-! ## Claim theorems -/

/-- C1: on a pool freshly initialized with a legal size 2 ^ K, for every
request that buddy_malloc satisfies with a non null pointer, buddy_free of
that pointer restores the freshly initialized state: every order below
kval_m has an empty self linked sentinel with tag BLOCK_UNUSED and kval i,
and the list of order kval_m holds exactly the whole arena block at the
arena base with tag BLOCK_AVAIL. -/
theorem malloc_free_roundtrip_restores_full (mem : Nat → Avail)
    (base K size i : Nat) (h1 : MIN_K ≤ K) (h2 : K ≤ MAX_K)
    (hs : (buddy_malloc (buddy_init mem base (2 ^ K)) size).1.isSome = true)
    (hi : i < K) :
    (buddy_free (buddy_malloc (buddy_init mem base (2 ^ K)) size).2
        (buddy_malloc (buddy_init mem base (2 ^ K)) size).1).2.freeLists i = [] ∧
    (buddy_free (buddy_malloc (buddy_init mem base (2 ^ K)) size).2
        (buddy_malloc (buddy_init mem base (2 ^ K)) size).1).2.sentinels i =
      ⟨BLOCK_UNUSED, i⟩ ∧
    (buddy_free (buddy_malloc (buddy_init mem base (2 ^ K)) size).2
        (buddy_malloc (buddy_init mem base (2 ^ K)) size).1).2.freeLists K = [0] ∧
    (buddy_free (buddy_malloc (buddy_init mem base (2 ^ K)) size).2
        (buddy_malloc (buddy_init mem base (2 ^ K)) size).1).2.headers 0 =
      ⟨BLOCK_AVAIL, K⟩ := by
  obtain ⟨hsz, hj⟩ := malloc_isSome_inv _ _ hs
  have hkm : (buddy_init mem base (2 ^ K)).kval_m = K := by
    rw [buddy_init_pow mem base K h1 h2]
  rw [hkm] at hj
  have hflP : ∀ i2, (buddy_init mem base (2 ^ K)).freeLists i2 =
      if i2 = K then [0] else [] := by
    intro i2
    rw [buddy_init_pow mem base K h1 h2]
  obtain ⟨r1, r2, r3, r4, r5, r6⟩ :=
    roundtrip_state (buddy_init mem base (2 ^ K)) K size hkm hflP hsz hj
  refine ⟨?_, ?_, ?_, r3⟩
  · rw [r2 i, if_neg (by omega)]
  · rw [r6, buddy_init_pow mem base K h1 h2]
  · rw [r2 K, if_pos rfl]

/-- Witness for C1 at K = 20, size = 1, i = 5, base = 0. -/
theorem malloc_free_roundtrip_restores_full_witness :
    MIN_K ≤ 20 ∧ 20 ≤ MAX_K ∧
    (buddy_malloc (buddy_init memZero 0 (2 ^ 20)) 1).1.isSome = true ∧
    5 < 20 ∧
    ((buddy_free (buddy_malloc (buddy_init memZero 0 (2 ^ 20)) 1).2
        (buddy_malloc (buddy_init memZero 0 (2 ^ 20)) 1).1).2.freeLists 5 = [] ∧
      (buddy_free (buddy_malloc (buddy_init memZero 0 (2 ^ 20)) 1).2
        (buddy_malloc (buddy_init memZero 0 (2 ^ 20)) 1).1).2.sentinels 5 =
        ⟨BLOCK_UNUSED, 5⟩ ∧
      (buddy_free (buddy_malloc (buddy_init memZero 0 (2 ^ 20)) 1).2
        (buddy_malloc (buddy_init memZero 0 (2 ^ 20)) 1).1).2.freeLists 20 = [0] ∧
      (buddy_free (buddy_malloc (buddy_init memZero 0 (2 ^ 20)) 1).2
        (buddy_malloc (buddy_init memZero 0 (2 ^ 20)) 1).1).2.headers 0 =
        ⟨BLOCK_AVAIL, 20⟩) :=
  ⟨by decide, by decide, by decide, by decide,
    malloc_free_roundtrip_restores_full memZero 0 20 1 5 (by decide) (by decide)
      (by decide) (by decide)⟩

/-- C2: after buddy_init with size 2 ^ K for K in [MIN_K, MAX_K], every
order below kval_m has an empty self linked sentinel with tag BLOCK_UNUSED
and kval i, and the list of order kval_m holds exactly one block at the
arena base whose header is BLOCK_AVAIL with order kval_m, covering the
entire arena. -/
theorem buddy_init_fresh_state (mem : Nat → Avail) (base K i : Nat)
    (h1 : MIN_K ≤ K) (h2 : K ≤ MAX_K) (hi : i < K) :
    (buddy_init mem base (2 ^ K)).kval_m = K ∧
    (buddy_init mem base (2 ^ K)).freeLists i = [] ∧
    (buddy_init mem base (2 ^ K)).sentinels i = ⟨BLOCK_UNUSED, i⟩ ∧
    (buddy_init mem base (2 ^ K)).freeLists K = [0] ∧
    (buddy_init mem base (2 ^ K)).headers 0 = ⟨BLOCK_AVAIL, K⟩ ∧
    (buddy_init mem base (2 ^ K)).numbytes = 2 ^ K := by
  rw [buddy_init_pow mem base K h1 h2]
  refine ⟨rfl, ?_, rfl, ?_, ?_, rfl⟩
  · show (if i = K then [0] else ([] : List Nat)) = []
    rw [if_neg (by omega)]
  · show (if K = K then [0] else ([] : List Nat)) = [0]
    rw [if_pos rfl]
  · show (if (0 : Nat) = 0 then (⟨BLOCK_AVAIL, K⟩ : Avail) else mem 0) =
      ⟨BLOCK_AVAIL, K⟩
    rw [if_pos rfl]

/-- Witness for C2 at K = 20, i = 3, base = 0. -/
theorem buddy_init_fresh_state_witness :
    MIN_K ≤ 20 ∧ 20 ≤ MAX_K ∧ 3 < 20 ∧
    ((buddy_init memZero 0 (2 ^ 20)).kval_m = 20 ∧
      (buddy_init memZero 0 (2 ^ 20)).freeLists 3 = [] ∧
      (buddy_init memZero 0 (2 ^ 20)).sentinels 3 = ⟨BLOCK_UNUSED, 3⟩ ∧
      (buddy_init memZero 0 (2 ^ 20)).freeLists 20 = [0] ∧
      (buddy_init memZero 0 (2 ^ 20)).headers 0 = ⟨BLOCK_AVAIL, 20⟩ ∧
      (buddy_init memZero 0 (2 ^ 20)).numbytes = 2 ^ 20) :=
  ⟨by decide, by decide, by decide,
    buddy_init_fresh_state memZero 0 20 3 (by decide) (by decide) (by decide)⟩

/-- C3: the claim asks that avail[maxOrder] be an in bounds entry of the
avail member array for every legal maxOrder in [MIN_K, MAX_K], in
particular for maxOrder = MAX_K = 48; the array declared in struct
BuddyPool has availLen = MAX_K entries (indices 0 to 47), so the index
MAX_K fails the bounds check: the code is one entry short of the spec. -/
theorem avail_table_top_order_out_of_bounds :
    MIN_K ≤ MAX_K ∧ MAX_K ≤ MAX_K ∧ ¬ MAX_K < availLen := by decide

/-- C4: btok bytes is the smallest k with 2 ^ k greater or equal bytes:
bytes fits below 2 ^ btok bytes, btok is minimal among all sufficient
exponents, btok 0 = btok 1 = 0, an exact power of two maps to its own
exponent (btok 4 = 2) and one above a power of two increments
(btok 5 = 3). -/
theorem btok_smallest_exponent (bytes k : Nat) (hk : bytes ≤ 2 ^ k) :
    bytes ≤ 2 ^ btok bytes ∧ btok bytes ≤ k ∧ btok 0 = 0 ∧ btok 1 = 0 ∧
      btok 4 = 2 ∧ btok 5 = 3 :=
  ⟨btok_le_pow bytes, btok_min hk, rfl, by decide, by decide, by decide⟩

/-- Witness for C4 at bytes = 1000, k = 10. -/
theorem btok_smallest_exponent_witness :
    1000 ≤ 2 ^ 10 ∧
    (1000 ≤ 2 ^ btok 1000 ∧ btok 1000 ≤ 10 ∧ btok 0 = 0 ∧ btok 1 = 0 ∧
      btok 4 = 2 ∧ btok 5 = 3) :=
  ⟨by decide, btok_smallest_exponent 1000 10 (by decide)⟩

/-- C5: for a block whose address is a valid block start of its recorded
order below kval_m, buddy_calc returns
pool.base + ((addr - pool.base) XOR (1 << kval)). -/
theorem buddy_calc_formula (p : PoolModel) (addr k : Nat)
    (hbase : p.base ≤ addr)
    (hk : (p.headers (addr - p.base)).kval = k)
    (hal : 2 ^ k ∣ (addr - p.base))
    (hlt : k < p.kval_m) :
    buddy_calc p addr = p.base + ((addr - p.base) ^^^ (1 <<< k)) ∧
    buddy_calc p addr = p.base + ((addr - p.base) ^^^ 2 ^ k) := by
  unfold buddy_calc
  rw [hk]
  exact ⟨rfl, by rw [Nat.shiftLeft_eq, one_mul]⟩

/-- Witness for C5 on a fresh pool, addr = 64 with recorded order 0. -/
theorem buddy_calc_formula_witness :
    (buddy_init memZero 0 (2 ^ 20)).base ≤ 64 ∧
    ((buddy_init memZero 0 (2 ^ 20)).headers
      (64 - (buddy_init memZero 0 (2 ^ 20)).base)).kval = 0 ∧
    2 ^ 0 ∣ (64 - (buddy_init memZero 0 (2 ^ 20)).base) ∧
    0 < (buddy_init memZero 0 (2 ^ 20)).kval_m ∧
    (buddy_calc (buddy_init memZero 0 (2 ^ 20)) 64 =
      (buddy_init memZero 0 (2 ^ 20)).base +
        ((64 - (buddy_init memZero 0 (2 ^ 20)).base) ^^^ (1 <<< 0)) ∧
    buddy_calc (buddy_init memZero 0 (2 ^ 20)) 64 =
      (buddy_init memZero 0 (2 ^ 20)).base +
        ((64 - (buddy_init memZero 0 (2 ^ 20)).base) ^^^ 2 ^ 0)) :=
  ⟨by decide, by decide, by norm_num, by decide,
    buddy_calc_formula (buddy_init memZero 0 (2 ^ 20)) 64 0 (by decide) (by decide)
      (by norm_num) (by decide)⟩

/-- C6: buddy_calc is an involution: on a valid block address and order
pair below kval_m, where both the block and its buddy record the same
order, applying buddy_calc twice returns the original address. -/
theorem buddy_calc_involution (p : PoolModel) (addr k : Nat)
    (hbase : p.base ≤ addr)
    (hk : (p.headers (addr - p.base)).kval = k)
    (hk2 : (p.headers ((addr - p.base) ^^^ 2 ^ k)).kval = k)
    (hlt : k < p.kval_m) :
    buddy_calc p (buddy_calc p addr) = addr := by
  unfold buddy_calc
  rw [hk, Nat.shiftLeft_eq, one_mul]
  have hx : p.base + ((addr - p.base) ^^^ 2 ^ k) - p.base =
      (addr - p.base) ^^^ 2 ^ k := by omega
  rw [hx, hk2, Nat.shiftLeft_eq, one_mul, Nat.xor_cancel_right]
  omega

/-- Witness for C6 on a fresh pool, addr = 64 with recorded order 0 on
both sides of the pair. -/
theorem buddy_calc_involution_witness :
    (buddy_init memZero 0 (2 ^ 20)).base ≤ 64 ∧
    ((buddy_init memZero 0 (2 ^ 20)).headers
      (64 - (buddy_init memZero 0 (2 ^ 20)).base)).kval = 0 ∧
    ((buddy_init memZero 0 (2 ^ 20)).headers
      ((64 - (buddy_init memZero 0 (2 ^ 20)).base) ^^^ 2 ^ 0)).kval = 0 ∧
    0 < (buddy_init memZero 0 (2 ^ 20)).kval_m ∧
    buddy_calc (buddy_init memZero 0 (2 ^ 20))
      (buddy_calc (buddy_init memZero 0 (2 ^ 20)) 64) = 64 :=
  ⟨by decide, by decide, by decide, by decide,
    buddy_calc_involution (buddy_init memZero 0 (2 ^ 20)) 64 0 (by decide)
      (by decide) (by decide) (by decide)⟩

theorem scan_none (p : PoolModel) : ∀ c j,
    (∀ i, j ≤ i → i < j + c → p.freeLists i = []) → scan p j c = none := by
  intro c
  induction c with
  | zero => intro j _; rfl
  | succ c ih =>
    intro j h
    simp only [scan, if_pos (h j (Nat.le_refl j) (by omega))]
    exact ih (j + 1) fun i h1 h2 => h i (by omega) (by omega)

theorem buddy_malloc_scan_none (p : PoolModel) (size : Nat) (hsz : size ≠ 0)
    (hg : ¬ p.kval_m < mallocOrder size)
    (hscan : scan p (mallocOrder size) (p.kval_m + 1 - mallocOrder size) = none) :
    buddy_malloc p size = (none, p) := by
  simp only [buddy_malloc, if_neg hsz, if_neg hg, hscan]

/-- C7: a buddy_malloc request that cannot be satisfied returns null and
leaves the pool record exactly unchanged, in both failure modes: the
request plus header overhead needs an order above kval_m, or no
sufficiently large free block remains (every list from the target order
up to kval_m is empty). -/
theorem buddy_malloc_failure_unchanged (p : PoolModel) (size : Nat)
    (h : p.kval_m < mallocOrder size ∨
      (∀ i, mallocOrder size ≤ i → i ≤ p.kval_m → p.freeLists i = [])) :
    (buddy_malloc p size).1 = none ∧ (buddy_malloc p size).2 = p := by
  by_cases hsz : size = 0
  · subst hsz
    rw [buddy_malloc_zero]
    exact ⟨rfl, rfl⟩
  · rcases h with hg | hex
    · rw [buddy_malloc_guard p size hg]
      exact ⟨rfl, rfl⟩
    · by_cases hg : p.kval_m < mallocOrder size
      · rw [buddy_malloc_guard p size hg]
        exact ⟨rfl, rfl⟩
      · have hscan : scan p (mallocOrder size)
            (p.kval_m + 1 - mallocOrder size) = none := by
          apply scan_none
          intro i hi1 hi2
          exact hex i hi1 (by omega)
        rw [buddy_malloc_scan_none p size hsz hg hscan]
        exact ⟨rfl, rfl⟩

/-- Witness for C7, the pool-exhausted mode of tests.c lines 66 to 67:
after the whole arena has been handed out, a malloc of 5 bytes finds
every list from its target order up to kval_m empty, returns null and
leaves the pool unchanged. -/
theorem buddy_malloc_failure_unchanged_witness :
    (buddy_malloc
        (buddy_malloc (buddy_init memZero 0 (2 ^ 20)) (2 ^ 20 - sizeofAvail)).2
        5).1 = none ∧
    (buddy_malloc
        (buddy_malloc (buddy_init memZero 0 (2 ^ 20)) (2 ^ 20 - sizeofAvail)).2
        5).2 =
      (buddy_malloc (buddy_init memZero 0 (2 ^ 20)) (2 ^ 20 - sizeofAvail)).2 :=
  buddy_malloc_failure_unchanged
    (buddy_malloc (buddy_init memZero 0 (2 ^ 20)) (2 ^ 20 - sizeofAvail)).2 5
    (Or.inr (by
      intro i hi1 hi2
      rw [show (buddy_malloc (buddy_init memZero 0 (2 ^ 20))
        (2 ^ 20 - sizeofAvail)).2.kval_m = 20 from by decide] at hi2
      rw [show mallocOrder 5 = 6 from by decide] at hi1
      interval_cases i <;> decide))

/-- C8 counterexample: replaying test_double_free (pool of 128 bytes,
clamped to order 20; malloc of 64 bytes; two frees of the same returned
pointer), the avail list of order 20 afterwards contains the arena base
block twice, so the table is not duplicate free as the claim states. -/
theorem double_free_cex :
    ¬ ((buddy_free (buddy_free (buddy_malloc (buddy_init memZero 0 128) 64).2
          (buddy_malloc (buddy_init memZero 0 128) 64).1).2
        (buddy_malloc (buddy_init memZero 0 128) 64).1).2.freeLists 20).Nodup := by
  decide

/-- C8 as amended: for a pointer returned by buddy_malloc on a freshly
initialized pool and already passed once to buddy_free with no
intervening allocation, a second buddy_free of the same pointer value
still terminates and returns success 0, but it does not leave the table
structurally consistent: the arena base block is inserted a second time,
so the list of order kval_m holds it twice (a duplicate entry). -/
theorem double_free_returns_zero_but_duplicates (mem : Nat → Avail)
    (base K size : Nat) (h1 : MIN_K ≤ K) (h2 : K ≤ MAX_K)
    (hs : (buddy_malloc (buddy_init mem base (2 ^ K)) size).1.isSome = true) :
    (buddy_malloc (buddy_init mem base (2 ^ K)) size).1 =
      some (base + sizeofAvail) ∧
    (buddy_free (buddy_free (buddy_malloc (buddy_init mem base (2 ^ K)) size).2
        (buddy_malloc (buddy_init mem base (2 ^ K)) size).1).2
      (some (base + sizeofAvail))).1 = 0 ∧
    (buddy_free (buddy_free (buddy_malloc (buddy_init mem base (2 ^ K)) size).2
        (buddy_malloc (buddy_init mem base (2 ^ K)) size).1).2
      (some (base + sizeofAvail))).2.freeLists K = [0, 0] ∧
    ¬ ((buddy_free (buddy_free (buddy_malloc (buddy_init mem base (2 ^ K)) size).2
        (buddy_malloc (buddy_init mem base (2 ^ K)) size).1).2
      (some (base + sizeofAvail))).2.freeLists K).Nodup := by
  obtain ⟨hsz, hj⟩ := malloc_isSome_inv _ _ hs
  have hkm : (buddy_init mem base (2 ^ K)).kval_m = K := by
    rw [buddy_init_pow mem base K h1 h2]
  rw [hkm] at hj
  have hbase : (buddy_init mem base (2 ^ K)).base = base := by
    rw [buddy_init_pow mem base K h1 h2]
  have hflP : ∀ i2, (buddy_init mem base (2 ^ K)).freeLists i2 =
      if i2 = K then [0] else [] := by
    intro i2
    rw [buddy_init_pow mem base K h1 h2]
  obtain ⟨m1, m2, m3, m4, m5, m6, m7⟩ :=
    malloc_full_state (buddy_init mem base (2 ^ K)) K size hkm hflP hsz hj
  obtain ⟨r1, r2, r3, r4, r5, r6⟩ :=
    roundtrip_state (buddy_init mem base (2 ^ K)) K size hkm hflP hsz hj
  have hm1 : (buddy_malloc (buddy_init mem base (2 ^ K)) size).1 =
      some (base + sizeofAvail) := by
    rw [m1, hbase]
  have ha : base + sizeofAvail - sizeofAvail -
      (buddy_free (buddy_malloc (buddy_init mem base (2 ^ K)) size).2
        (buddy_malloc (buddy_init mem base (2 ^ K)) size).1).2.base = 0 := by
    rw [r5, hbase]
    omega
  obtain ⟨f1, f2⟩ :=
    free_on_full (buddy_free (buddy_malloc (buddy_init mem base (2 ^ K)) size).2
      (buddy_malloc (buddy_init mem base (2 ^ K)) size).1).2 K
      (base + sizeofAvail) r4 r2 r3 ha
  refine ⟨hm1, f1, f2, ?_⟩
  rw [f2]
  decide

/-- Witness for C8 as amended at K = 20, size = 64, base = 0. -/
theorem double_free_returns_zero_but_duplicates_witness :
    MIN_K ≤ 20 ∧ 20 ≤ MAX_K ∧
    (buddy_malloc (buddy_init memZero 0 (2 ^ 20)) 64).1.isSome = true ∧
    ((buddy_malloc (buddy_init memZero 0 (2 ^ 20)) 64).1 =
        some (0 + sizeofAvail) ∧
      (buddy_free (buddy_free (buddy_malloc (buddy_init memZero 0 (2 ^ 20)) 64).2
          (buddy_malloc (buddy_init memZero 0 (2 ^ 20)) 64).1).2
        (some (0 + sizeofAvail))).1 = 0 ∧
      (buddy_free (buddy_free (buddy_malloc (buddy_init memZero 0 (2 ^ 20)) 64).2
          (buddy_malloc (buddy_init memZero 0 (2 ^ 20)) 64).1).2
        (some (0 + sizeofAvail))).2.freeLists 20 = [0, 0] ∧
      ¬ ((buddy_free (buddy_free (buddy_malloc (buddy_init memZero 0 (2 ^ 20)) 64).2
          (buddy_malloc (buddy_init memZero 0 (2 ^ 20)) 64).1).2
        (some (0 + sizeofAvail))).2.freeLists 20).Nodup) :=
  ⟨by decide, by decide, by decide,
    double_free_returns_zero_but_duplicates memZero 0 20 64 (by decide) (by decide)
      (by decide)⟩

/-- C9: the sentinel identity fields survive every sequence of malloc and
free operations after buddy_init: in any reachable pool state the
sentinel of each order i at most kval_m still reads tag BLOCK_UNUSED with
kval i, and kval_m itself never changes. -/
theorem sentinel_identity_reachable (mem : Nat → Avail) (base K : Nat)
    (ops : List Op) (i : Nat)
    (h1 : MIN_K ≤ K) (h2 : K ≤ MAX_K) (hi : i ≤ K) :
    (runOps (buddy_init mem base (2 ^ K)) ops).sentinels i = ⟨BLOCK_UNUSED, i⟩ ∧
    (runOps (buddy_init mem base (2 ^ K)) ops).kval_m = K := by
  rw [runOps_sentinels, runOps_kval_m, buddy_init_pow mem base K h1 h2]
  exact ⟨rfl, rfl⟩

/-- Witness for C9: after the whole arena malloc (which empties even the
top order list), the top order sentinel still reads BLOCK_UNUSED with
kval 20. -/
theorem sentinel_identity_reachable_witness :
    MIN_K ≤ 20 ∧ 20 ≤ MAX_K ∧ 20 ≤ 20 ∧
    ((runOps (buddy_init memZero 0 (2 ^ 20))
        [Op.malloc (2 ^ 20 - sizeofAvail)]).sentinels 20 = ⟨BLOCK_UNUSED, 20⟩ ∧
      (runOps (buddy_init memZero 0 (2 ^ 20))
        [Op.malloc (2 ^ 20 - sizeofAvail)]).kval_m = 20) :=
  ⟨by decide, by decide, by decide,
    sentinel_identity_reachable memZero 0 20 [Op.malloc (2 ^ 20 - sizeofAvail)] 20
      (by decide) (by decide) (by decide)⟩

/-- C10: on a freshly initialized pool of 2 ^ K bytes, requesting
2 ^ K - sizeofAvail bytes succeeds with the pointer just past the header
at the arena base, that header reads BLOCK_RESERVED with kval K, and
afterwards every free list of the pool, order K included, is empty. -/
theorem malloc_whole_arena (mem : Nat → Avail) (base K i : Nat)
    (h1 : MIN_K ≤ K) (h2 : K ≤ MAX_K) :
    (buddy_malloc (buddy_init mem base (2 ^ K)) (2 ^ K - sizeofAvail)).1 =
      some (base + sizeofAvail) ∧
    (buddy_malloc (buddy_init mem base (2 ^ K)) (2 ^ K - sizeofAvail)).2.headers 0 =
      ⟨BLOCK_RESERVED, K⟩ ∧
    (buddy_malloc (buddy_init mem base (2 ^ K)) (2 ^ K - sizeofAvail)).2.freeLists i =
      [] := by
  have h1n : 20 ≤ K := h1
  have hp : (25 : Nat) ≤ 2 ^ K := by
    have h20 : (2 : Nat) ^ 20 ≤ 2 ^ K := Nat.pow_le_pow_right (by norm_num) h1n
    have he : (2 : Nat) ^ 20 = 1048576 := by norm_num
    omega
  have hsz : 2 ^ K - sizeofAvail ≠ 0 := by
    have : sizeofAvail = 24 := rfl
    omega
  have hmo : mallocOrder (2 ^ K - sizeofAvail) = K := by
    unfold mallocOrder
    have hplus : 2 ^ K - sizeofAvail + sizeofAvail = 2 ^ K := by
      have : sizeofAvail = 24 := rfl
      omega
    rw [hplus, btok_pow, show SMALLEST_K = 6 from rfl]
    omega
  have hkm : (buddy_init mem base (2 ^ K)).kval_m = K := by
    rw [buddy_init_pow mem base K h1 h2]
  have hflP : ∀ i2, (buddy_init mem base (2 ^ K)).freeLists i2 =
      if i2 = K then [0] else [] := by
    intro i2
    rw [buddy_init_pow mem base K h1 h2]
  have hbase : (buddy_init mem base (2 ^ K)).base = base := by
    rw [buddy_init_pow mem base K h1 h2]
  obtain ⟨m1, m2, m3, m4, m5, m6, m7⟩ :=
    malloc_full_state (buddy_init mem base (2 ^ K)) K (2 ^ K - sizeofAvail)
      hkm hflP hsz (by rw [hmo])
  refine ⟨?_, ?_, ?_⟩
  · rw [m1, hbase]
  · rw [m4, hmo]
  · rw [m2 i, hmo, if_neg (by omega)]

/-- Witness for C10 at K = 20, base = 0, checking the top order list. -/
theorem malloc_whole_arena_witness :
    MIN_K ≤ 20 ∧ 20 ≤ MAX_K ∧
    ((buddy_malloc (buddy_init memZero 0 (2 ^ 20)) (2 ^ 20 - sizeofAvail)).1 =
        some (0 + sizeofAvail) ∧
      (buddy_malloc (buddy_init memZero 0 (2 ^ 20))
        (2 ^ 20 - sizeofAvail)).2.headers 0 = ⟨BLOCK_RESERVED, 20⟩ ∧
      (buddy_malloc (buddy_init memZero 0 (2 ^ 20))
        (2 ^ 20 - sizeofAvail)).2.freeLists 20 = []) :=
  ⟨by decide, by decide,
    malloc_whole_arena memZero 0 20 20 (by decide) (by decide)⟩
